import Mathlib

/-!
Shallow embedding of the BoombaBox music-player core (src/BoombaBox.py).

The GUI widgets, the VLC backend and the mutagen tag reader are external
collaborators; here the pure state and logic are modelled:
* `Song` mirrors the per-song dictionary built by `scan_music_folder`
  (the `art` field, a `QImage`, is presentation-only and omitted).
* `scan_music_folder` is parameterised by the filesystem contents: whether
  the root folder exists and, per file, the name together with the outcome
  of the external tag read (`TagRead.failure` models the `except` branch,
  `TagRead.success` carries the optional tag values; a `File` call that
  returns `None` is `success none none none none`).
* `PState` gathers the mutable fields of the `MusicPlayer` object that the
  sequencing logic touches; `random.choice` / `random.randint` are modelled
  by a `pick` function handed the candidate list.
-/

structure Song where
  title : String
  artist : String
  album : String
  genre : String
  file : String
  duration : Nat
  plays : Nat
deriving DecidableEq, Repr

/-- Python's `str.lower()` (ASCII case folding, as adequate for the tag
strings involved). -/
def pyLower (s : String) : String := String.mk (s.data.map Char.toLower)

/-- Python's substring test `needle in hay` on strings. -/
def strIn (needle hay : String) : Bool :=
  (List.range (hay.data.length + 1)).any
    (fun i => decide ((hay.data.drop i).take needle.data.length = needle.data))

/-- Python's `str.endswith(suffix)`. -/
def pyEndsWith (s suffix : String) : Bool :=
  decide (s.data.drop (s.data.length - suffix.data.length) = suffix.data)

/-- os.path.splitext(f)[0]: everything before the last dot, except that a
filename whose characters before the last dot are all dots is not split. -/
def splitextBase (f : String) : String :=
  let cs := f.data
  let dotIdxs := (List.range cs.length).filter (fun i => cs.get? i = some '.')
  match dotIdxs.getLast? with
  | none => f
  | some i => if (cs.take i).all (fun c => c = '.') then f else String.mk (cs.take i)

/-- The fixed allow-list test `f.lower().endswith((".mp3", ...))`. -/
def supportedExt (f : String) : Bool :=
  [".mp3", ".wav", ".flac", ".ogg", ".m4a", ".aac"].any
    (fun e => pyEndsWith (pyLower f) e)

/-- Outcome of the external tag reader on one file: `failure` models
`mutagen.File` raising (the `except` branch of `scan_music_folder`);
`success` carries the optional tag values, with `none` standing for a
missing tag or for `File` returning `None`. -/
inductive TagRead where
  | failure
  | success (title artist album genre : Option String)
deriving DecidableEq, Repr

/-- One iteration of the scan loop body for a file `e.1` with tag-read
outcome `e.2`: `none` when the file is skipped. -/
def scanEntry (folder : String) (e : String × TagRead) : Option Song :=
  if supportedExt e.1 then
    match e.2 with
    | .failure => none
    | .success t a al g =>
        some { title := t.getD (splitextBase e.1)
               artist := a.getD "Unknown Artist"
               album := al.getD "Unknown Album"
               genre := g.getD "Unknown Genre"
               file := folder ++ "/" ++ e.1
               duration := 0
               plays := 0 }
  else none

/-- `scan_music_folder`: a missing root is created and yields `[]`;
otherwise each file of the walk is processed by the loop body. -/
def scan_music_folder (folderExists : Bool) (folder : String)
    (entries : List (String × TagRead)) : List Song :=
  if folderExists then entries.filterMap (scanEntry folder) else []

/-- The list comprehension of `apply_filter`: keep a song when the lowered
query occurs in one of the four lowered text fields. -/
def filterSongs (text : String) (songs : List Song) : List Song :=
  let t := pyLower text
  songs.filter (fun s =>
    strIn t (pyLower s.artist) || strIn t (pyLower s.album) ||
    strIn t (pyLower s.genre) || strIn t (pyLower s.title))

/-- `apply_sort`: Python's stable `list.sort(key=...)` for the four combo
positions; index 4 is `reverse=True` on the play count. -/
def sortList (i : Nat) (l : List Song) : List Song :=
  if i = 1 then l.mergeSort (fun a b => decide (pyLower a.title ≤ pyLower b.title))
  else if i = 2 then l.mergeSort (fun a b => decide (pyLower a.artist ≤ pyLower b.artist))
  else if i = 3 then l.mergeSort (fun a b => decide (pyLower a.album ≤ pyLower b.album))
  else if i = 4 then l.mergeSort (fun a b => decide (b.plays ≤ a.plays))
  else l

/-- `add_to_recent_plays`: drop an earlier occurrence, push to the front,
keep the last 50. -/
def add_to_recent_plays (p : String) (r : List String) : List String :=
  let r := if p ∈ r then r.erase p else r
  (p :: r).take 50

/-- The parsed `settings.json` dictionary: both keys optional. -/
structure SettingsDict where
  favorites : Option (List String)
  recent_plays : Option (List String)
deriving DecidableEq, Repr

/-- State of the settings file on disk at startup. -/
inductive SettingsFile where
  | missing
  | malformed
  | parsed (d : SettingsDict)
deriving DecidableEq, Repr

/-- `load_settings`: a missing file and an unparseable file both give the
empty dictionary. -/
def load_settings : SettingsFile → SettingsDict
  | .missing => { favorites := none, recent_plays := none }
  | .malformed => { favorites := none, recent_plays := none }
  | .parsed d => d

/-- `self.settings.get("favorites", [])` in `MusicPlayer.__init__`. -/
def initFavorites (d : SettingsDict) : List String := d.favorites.getD []

/-- `self.settings.get("recent_plays", [])` in `MusicPlayer.__init__`. -/
def initRecentPlays (d : SettingsDict) : List String := d.recent_plays.getD []

/-- The mutable `MusicPlayer` fields touched by the sequencing logic.
`filtered` is `self.filtered_songs` (the View), `songs` the catalog.
In Python both lists alias the same song dictionaries, so a play-count
increment is visible in both; here `incPlays` updates both lists by path
(paths are unique within one scan). `sortIndex` is the sort combo-box
position consulted by `apply_filter`. -/
structure PState where
  songs : List Song
  filtered : List Song
  currentIndex : Int
  isShuffle : Bool
  repeatMode : Nat
  shuffleHistory : List Nat
  playQueue : List String
  favorites : List String
  recentPlays : List String
  sortIndex : Nat
deriving DecidableEq, Repr

/-- `song["plays"] = song.get("plays", 0) + 1`, applied by path so that the
Python aliasing of the catalog and View dictionaries is reproduced. -/
def incPlays (p : String) (l : List Song) : List Song :=
  l.map (fun s => if s.file = p then { s with plays := s.plays + 1 } else s)

/-- `play_song(row)`: out-of-range rows return unchanged; otherwise the
current index is set, the play count and recent plays are recorded, and the
row joins the shuffle history when shuffle is on and it is not yet there. -/
def play_song (row : Int) (st : PState) : PState :=
  if h : 0 ≤ row ∧ row < (st.filtered.length : Int) then
    let song := st.filtered.get ⟨row.toNat, by omega⟩
    { st with
      currentIndex := row
      songs := incPlays song.file st.songs
      filtered := incPlays song.file st.filtered
      recentPlays := add_to_recent_plays song.file st.recentPlays
      shuffleHistory :=
        if st.isShuffle ∧ row.toNat ∉ st.shuffleHistory
        then st.shuffleHistory ++ [row.toNat] else st.shuffleHistory }
  else st

/-- The View indices not yet in the shuffle history
(`[i for i in range(len(self.filtered_songs)) if i not in self.shuffle_history]`). -/
def unplayedOf (st : PState) : List Nat :=
  (List.range st.filtered.length).filter (fun i => decide (i ∉ st.shuffleHistory))

/-- The part of `next_song` after the queue check.  `pick` stands for the
random generator: `random.choice` receives the candidate list, and
`random.randint(0, n-1)` is `pick` on `List.range n`. -/
def advanceNoQueue (pick : List Nat → Nat) (st : PState) : PState :=
  if st.filtered.isEmpty then st
  else if st.isShuffle then
    if (unplayedOf st).isEmpty then
      play_song (pick (List.range st.filtered.length) : Int)
        { st with shuffleHistory := [],
                  currentIndex := (pick (List.range st.filtered.length) : Int) }
    else
      play_song (pick (unplayedOf st) : Int)
        { st with currentIndex := (pick (unplayedOf st) : Int) }
  else
    if st.currentIndex < (st.filtered.length : Int) - 1 then
      play_song (st.currentIndex + 1) { st with currentIndex := st.currentIndex + 1 }
    else if st.repeatMode = 1 then
      play_song 0 { st with currentIndex := 0 }
    else st

/-- The queue head lookup of `next_song`: the first catalog song whose path
matches, provided that song dictionary also occurs in the View; the played
index is `self.filtered_songs.index(song)`. -/
def resolveInView (songs filtered : List Song) (p : String) : Option Nat :=
  match songs.find? (fun s => s.file == p) with
  | none => none
  | some song => if song ∈ filtered then some (filtered.indexOf song) else none

/-- `next_song`: a non-empty queue is popped first; a resolvable head is
played at its View index, an unresolvable one falls through to the normal
sequencing for the same call. -/
def next_song (pick : List Nat → Nat) (st : PState) : PState :=
  match st.playQueue with
  | [] => advanceNoQueue pick st
  | p :: rest =>
    match resolveInView st.songs st.filtered p with
    | some i => play_song (i : Int) { st with playQueue := rest, currentIndex := (i : Int) }
    | none => advanceNoQueue pick { st with playQueue := rest }

/-- Successive `next_song` calls, call `k` using the generator `picks k`. -/
def advanceTrace (picks : Nat → List Nat → Nat) (st : PState) : Nat → PState
  | 0 => st
  | k + 1 => next_song (picks k) (advanceTrace picks st k)

/-- `toggle_shuffle`, parameterised by the new checked state of the
shuffle button: checking clears the history, unchecking leaves it inert. -/
def toggle_shuffle (checked : Bool) (st : PState) : PState :=
  if checked then { st with isShuffle := true, shuffleHistory := [] }
  else { st with isShuffle := false }

/-- `apply_sort(index)`: sorts the View in place. -/
def apply_sort (i : Nat) (st : PState) : PState :=
  { st with filtered := sortList i st.filtered }

/-- `apply_filter(text)`: recompute the View from the catalog, then
re-apply the current combo-box sort. -/
def apply_filter (text : String) (st : PState) : PState :=
  apply_sort st.sortIndex { st with filtered := filterSongs text st.songs }

/-- `refresh_library`: rescan and replace both the catalog and the View. -/
def refresh_library (folderExists : Bool) (folder : String)
    (entries : List (String × TagRead)) (st : PState) : PState :=
  let newSongs := scan_music_folder folderExists folder entries
  { st with songs := newSongs, filtered := newSongs }

/-- Named playlists: `self.playlists`, a dict from name to path list. -/
abbrev Playlists := List (String × List String)

/-- `self.playlists[name]` (callers only use existing names). -/
def lookupPlaylist (pls : Playlists) (name : String) : List String :=
  ((pls.find? (fun e => e.1 == name)).map Prod.snd).getD []

/-- Write one playlist back into the dict. -/
def setPlaylist (pls : Playlists) (name : String) (l : List String) : Playlists :=
  pls.map (fun e => if e.1 == name then (e.1, l) else e)

/-- What `quick_add_to_playlist` surfaces to the user: a success message
box, or nothing at all. -/
inductive AddReport where
  | addedMsg (playlist : String)
  | silent
deriving DecidableEq, Repr

/-- `quick_add_to_playlist(playlist_name, song_index)`: append the song's
path unless it is already present; only the appending branch shows a
message. -/
def quick_add_to_playlist (name : String) (view : List Song) (idx : Nat)
    (pls : Playlists) : Playlists × AddReport :=
  match view[idx]? with
  | none => (pls, .silent)
  | some song =>
    let cur := lookupPlaylist pls name
    if song.file ∈ cur then (pls, .silent)
    else (setPlaylist pls name (cur ++ [song.file]), .addedMsg name)

/-- `add_to_queue(index)`: enqueue the View song's path unless already
queued. -/
def add_to_queue (view : List Song) (idx : Nat) (q : List String) : List String :=
  match view[idx]? with
  | none => q
  | some song => if song.file ∈ q then q else q ++ [song.file]

/-- `clear_queue`. -/
def clear_queue : List String := []

/-- The `self.play_queue.pop(idx)` removal of `play_from_queue`
(`next_song` pops index 0). -/
def popQueueAt (i : Nat) (q : List String) : List String := q.eraseIdx i

/-- Modelled from the spec: "q is a case-insensitive substring of one of
S's four text fields" — the spec-side predicate for one field, to be
compared with the View computed by `apply_filter`. -/
def specCISubstr (q field : String) : Bool := strIn (pyLower q) (pyLower field)

/-! Concrete fixtures used by witnesses and counterexamples. -/

def songRock : Song :=
  { title := "Alpha", artist := "Art Ex", album := "Album One",
    genre := "Rock", file := "music/a.mp3", duration := 0, plays := 0 }

def songPop : Song :=
  { title := "Beta", artist := "Art Why", album := "Album Two",
    genre := "Pop", file := "music/b.mp3", duration := 0, plays := 0 }

def baseState : PState :=
  { songs := [songRock, songPop], filtered := [songRock, songPop],
    currentIndex := -1, isShuffle := false, repeatMode := 0,
    shuffleHistory := [], playQueue := [], favorites := [],
    recentPlays := [], sortIndex := 0 }

/-- A deterministic stand-in for the random generator: always the head. -/
def pickHead : List Nat → Nat := fun l => l.headD 0

/-- A per-call family of deterministic generators. -/
def picksHead : Nat → List Nat → Nat := fun _ l => l.headD 0

/-- A state whose only song has already been played five times. -/
def stPlayed : PState :=
  { baseState with
    songs := [{ songRock with plays := 5 }, songPop],
    filtered := [{ songRock with plays := 5 }, songPop] }

/-! Basic facts about the state machine, shared by the claim theorems. -/

theorem play_song_fields (row : Int) (st : PState) :
    (play_song row st).playQueue = st.playQueue ∧
    (play_song row st).isShuffle = st.isShuffle ∧
    (play_song row st).repeatMode = st.repeatMode ∧
    (play_song row st).filtered.length = st.filtered.length := by
  unfold play_song
  split
  · simp [incPlays]
  · exact ⟨rfl, rfl, rfl, rfl⟩

theorem play_song_inRange (row : Int) (st : PState)
    (h0 : 0 ≤ row) (h1 : row < (st.filtered.length : Int)) :
    (play_song row st).currentIndex = row ∧
    (play_song row st).shuffleHistory =
      (if st.isShuffle ∧ row.toNat ∉ st.shuffleHistory
       then st.shuffleHistory ++ [row.toNat] else st.shuffleHistory) := by
  unfold play_song
  rw [dif_pos ⟨h0, h1⟩]
  exact ⟨rfl, rfl⟩

theorem play_song_currentIndex_set (row : Int) (st : PState) :
    (play_song row { st with currentIndex := row }).currentIndex = row := by
  unfold play_song
  split
  · rfl
  · rfl

theorem advanceNoQueue_playQueue (pick : List Nat → Nat) (st : PState) :
    (advanceNoQueue pick st).playQueue = st.playQueue := by
  unfold advanceNoQueue
  split
  · rfl
  · split
    · split
      · exact (play_song_fields _ _).1
      · exact (play_song_fields _ _).1
    · split
      · exact (play_song_fields _ _).1
      · split
        · exact (play_song_fields _ _).1
        · rfl

theorem next_song_nil_queue (pick : List Nat → Nat) (st : PState)
    (h : st.playQueue = []) :
    next_song pick st = advanceNoQueue pick st := by
  unfold next_song
  split
  · rfl
  · rename_i p rest heq
    rw [h] at heq
    cases heq

theorem next_song_cons_queue (pick : List Nat → Nat) (st : PState)
    (p : String) (rest : List String) (h : st.playQueue = p :: rest) :
    next_song pick st =
      (match resolveInView st.songs st.filtered p with
       | some i =>
           play_song (i : Int) { st with playQueue := rest, currentIndex := (i : Int) }
       | none => advanceNoQueue pick { st with playQueue := rest }) := by
  unfold next_song
  split
  · rename_i heq
    rw [h] at heq
    cases heq
  · rename_i p2 rest2 heq
    rw [h] at heq
    injection heq with h1 h2
    subst h1
    subst h2
    rfl

theorem unplayedOf_ne_nil (st : PState)
    (hlen : st.shuffleHistory.length < st.filtered.length) :
    unplayedOf st ≠ [] := by
  intro hemp
  have hsub : Finset.range st.filtered.length ⊆ st.shuffleHistory.toFinset := by
    intro i hi
    rw [Finset.mem_range] at hi
    rw [List.mem_toFinset]
    by_contra hni
    have hmem : i ∈ unplayedOf st := by
      unfold unplayedOf
      rw [List.mem_filter]
      exact ⟨List.mem_range.mpr hi, by simpa using hni⟩
    rw [hemp] at hmem
    cases hmem
  have h2 := Finset.card_le_card hsub
  rw [Finset.card_range] at h2
  have h3 := List.toFinset_card_le st.shuffleHistory
  omega

theorem mem_unplayedOf {st : PState} {i : Nat} (h : i ∈ unplayedOf st) :
    i < st.filtered.length ∧ i ∉ st.shuffleHistory := by
  unfold unplayedOf at h
  rw [List.mem_filter] at h
  obtain ⟨h1, h2⟩ := h
  exact ⟨List.mem_range.mp h1, by simpa using h2⟩

theorem shuffle_advance_step (pick : List Nat → Nat) (st : PState)
    (hp : ∀ l, l ≠ [] → pick l ∈ l)
    (hsh : st.isShuffle = true) (hq : st.playQueue = [])
    (hne : unplayedOf st ≠ []) :
    pick (unplayedOf st) < st.filtered.length ∧
    pick (unplayedOf st) ∉ st.shuffleHistory ∧
    (next_song pick st).currentIndex = ((pick (unplayedOf st) : Nat) : Int) ∧
    (next_song pick st).shuffleHistory = st.shuffleHistory ++ [pick (unplayedOf st)] ∧
    (next_song pick st).isShuffle = true ∧
    (next_song pick st).playQueue = [] ∧
    (next_song pick st).filtered.length = st.filtered.length := by
  obtain ⟨hrange, hnotin⟩ := mem_unplayedOf (hp _ hne)
  rw [next_song_nil_queue pick st hq]
  have hnonempty : ¬(st.filtered.isEmpty = true) := by
    rw [List.isEmpty_iff]
    intro h0
    rw [h0] at hrange
    simp at hrange
  unfold advanceNoQueue
  rw [if_neg hnonempty, if_pos (by rw [hsh]), if_neg (by rw [List.isEmpty_iff]; exact hne)]
  have hb0 : (0 : Int) ≤ (pick (unplayedOf st) : Int) := by positivity
  have hb1 : ((pick (unplayedOf st) : Nat) : Int) <
      (({ st with currentIndex := ((pick (unplayedOf st) : Nat) : Int) } : PState).filtered.length : Int) := by
    exact_mod_cast hrange
  have hin := play_song_inRange _ _ hb0 hb1
  have hfields := play_song_fields ((pick (unplayedOf st) : Nat) : Int)
    { st with currentIndex := ((pick (unplayedOf st) : Nat) : Int) }
  refine ⟨hrange, hnotin, hin.1, ?_, ?_, ?_, ?_⟩
  · rw [hin.2]
    rw [if_pos]
    · simp
    · refine ⟨by rw [hsh], ?_⟩
      simpa using hnotin
  · rw [hfields.2.1, hsh]
  · rw [hfields.1, hq]
  · exact hfields.2.2.2

theorem c1_trace_invariant (picks : Nat → List Nat → Nat) (st : PState)
    (hv : ∀ k l, l ≠ [] → picks k l ∈ l)
    (hsh : st.isShuffle = true) (hq : st.playQueue = [])
    (hh : st.shuffleHistory = []) :
    ∀ k, k ≤ st.filtered.length →
      (advanceTrace picks st k).isShuffle = true ∧
      (advanceTrace picks st k).playQueue = [] ∧
      (advanceTrace picks st k).filtered.length = st.filtered.length ∧
      (advanceTrace picks st k).shuffleHistory.length = k ∧
      (advanceTrace picks st k).shuffleHistory.Nodup ∧
      (advanceTrace picks st k).shuffleHistory.map (fun x : Nat => (x : Int)) =
        (List.range k).map (fun j => (advanceTrace picks st (j + 1)).currentIndex) := by
  intro k
  induction k with
  | zero =>
    intro _
    refine ⟨hsh, hq, rfl, ?_, ?_, ?_⟩ <;> simp [advanceTrace, hh]
  | succ k ih =>
    intro hk
    obtain ⟨i1, i2, i3, i4, i5, i6⟩ := ih (by omega)
    have hne : unplayedOf (advanceTrace picks st k) ≠ [] := by
      apply unplayedOf_ne_nil
      rw [i3, i4]
      omega
    obtain ⟨s1, s2, s3, s4, s5, s6, s7⟩ :=
      shuffle_advance_step (picks k) (advanceTrace picks st k) (hv k) i1 i2 hne
    have hTr : advanceTrace picks st (k + 1) =
        next_song (picks k) (advanceTrace picks st k) := rfl
    refine ⟨by rw [hTr]; exact s5, by rw [hTr]; exact s6, ?_, ?_, ?_, ?_⟩
    · rw [hTr, s7, i3]
    · rw [hTr, s4]
      simp [i4]
    · rw [hTr, s4, List.nodup_append]
      refine ⟨i5, List.nodup_singleton _, ?_⟩
      intro a ha hai
      rw [List.mem_singleton] at hai
      subst hai
      exact s2 ha
    · rw [hTr, s4, List.map_append, i6, List.range_succ, List.map_append]
      simp only [List.map_cons, List.map_nil]
      rw [hTr, s3]

/-- C1: with shuffle on, an empty queue and an initially empty shuffle
history, the View indices selected by the first N `advance()` calls
(N the View size) are pairwise distinct, for every behaviour of the random
generator; only the (N+1)-th call, after the history has become exhaustive
and is cleared, may repeat one. -/
theorem shuffle_no_repeat_until_exhausted (picks : Nat → List Nat → Nat)
    (st : PState) (hv : ∀ k l, l ≠ [] → picks k l ∈ l)
    (hsh : st.isShuffle = true) (hq : st.playQueue = [])
    (hh : st.shuffleHistory = []) :
    ((List.range st.filtered.length).map
      (fun k => (advanceTrace picks st (k + 1)).currentIndex)).Nodup := by
  obtain ⟨-, -, -, -, h5, h6⟩ :=
    c1_trace_invariant picks st hv hsh hq hh st.filtered.length le_rfl
  rw [← h6]
  exact h5.map (fun a b hab => by exact_mod_cast hab)

theorem shuffle_no_repeat_until_exhausted_witness :
    (∀ k l, l ≠ [] → picksHead k l ∈ l) ∧
    ((List.range ({ baseState with isShuffle := true } : PState).filtered.length).map
      (fun k =>
        (advanceTrace picksHead { baseState with isShuffle := true } (k + 1)).currentIndex)).Nodup := by
  have hv : ∀ k l, l ≠ [] → picksHead k l ∈ l := by
    intro k l hl
    cases l with
    | nil => exact absurd rfl hl
    | cons a t => simp [picksHead]
  exact ⟨hv, shuffle_no_repeat_until_exhausted picksHead
    { baseState with isShuffle := true } hv rfl rfl rfl⟩

/-- C2 counterexample: the path "music/a.mp3" is present before and after
the rescan, its play count before is 5, yet after the rescan it is 0 —
`refresh_library` rebuilds the catalog from `scan_music_folder`, which
always writes `plays = 0`, so counts are not carried over by path. -/
theorem rescan_drops_play_counts_cx :
    (stPlayed.songs.find? (fun s => s.file == "music/a.mp3")).map Song.plays
      = some 5 ∧
    (((refresh_library true "music"
        [("a.mp3", TagRead.success (some "Alpha") (some "Art Ex")
            (some "Album One") (some "Rock"))] stPlayed).songs.find?
        (fun s => s.file == "music/a.mp3")).map Song.plays) = some 0 ∧
    some (0 : Nat) ≠ some 5 := by
  refine ⟨by decide, by decide, by decide⟩

/-- C2 amended: a rescan replaces the song set and resets every play count
to 0 — counts are never carried over, whether or not the path survived. -/
theorem rescan_resets_play_counts (ex : Bool) (folder : String)
    (entries : List (String × TagRead)) (st : PState) (s : Song)
    (hs : s ∈ (refresh_library ex folder entries st).songs) :
    s.plays = 0 := by
  cases ex with
  | false => simp [refresh_library, scan_music_folder] at hs
  | true =>
    simp only [refresh_library, scan_music_folder, if_pos] at hs
    rw [List.mem_filterMap] at hs
    obtain ⟨e, -, he⟩ := hs
    unfold scanEntry at he
    split at he
    · split at he
      · cases he
      · injection he with h1
        rw [← h1]
    · cases he

theorem rescan_resets_play_counts_witness :
    ({ title := "b", artist := "Unknown Artist", album := "Unknown Album",
       genre := "Unknown Genre", file := "music/b.mp3", duration := 0,
       plays := 0 } : Song) ∈
      (refresh_library true "music" [("b.mp3", TagRead.success none none none none)]
        stPlayed).songs ∧
    ({ title := "b", artist := "Unknown Artist", album := "Unknown Album",
       genre := "Unknown Genre", file := "music/b.mp3", duration := 0,
       plays := 0 } : Song).plays = 0 :=
  ⟨by decide,
   rescan_resets_play_counts true "music"
     [("b.mp3", TagRead.success none none none none)] stPlayed
     { title := "b", artist := "Unknown Artist", album := "Unknown Album",
       genre := "Unknown Genre", file := "music/b.mp3", duration := 0,
       plays := 0 } (by decide)⟩

/-- C3: whenever the queue is non-empty, `next_song` removes its head
before any shuffle/sequence/repeat logic runs; a head that resolves to a
View index is played at that index, and an unresolvable head falls through
silently to the normal sequencing of the same call. -/
theorem queue_precedence (pick : List Nat → Nat) (st : PState) (p : String)
    (rest : List String) (hq : st.playQueue = p :: rest) :
    (next_song pick st).playQueue = rest ∧
    (∀ i, resolveInView st.songs st.filtered p = some i →
      next_song pick st =
        play_song (i : Int) { st with playQueue := rest, currentIndex := (i : Int) }) ∧
    (resolveInView st.songs st.filtered p = none →
      next_song pick st = advanceNoQueue pick { st with playQueue := rest }) := by
  rw [next_song_cons_queue pick st p rest hq]
  refine ⟨?_, ?_, ?_⟩
  · cases hr : resolveInView st.songs st.filtered p with
    | none =>
      simp only [hr]
      rw [advanceNoQueue_playQueue]
    | some i =>
      simp only [hr]
      exact (play_song_fields _ _).1
  · intro i hr
    rw [hr]
  · intro hr
    rw [hr]

theorem queue_precedence_witness :
    ({ baseState with playQueue := ["music/b.mp3"] } : PState).playQueue
      = "music/b.mp3" :: [] ∧
    (next_song pickHead { baseState with playQueue := ["music/b.mp3"] }).playQueue = [] ∧
    next_song pickHead { baseState with playQueue := ["music/b.mp3"] } =
      play_song ((1 : Nat) : Int)
        { { baseState with playQueue := ["music/b.mp3"] } with
          playQueue := [], currentIndex := ((1 : Nat) : Int) } ∧
    next_song pickHead { baseState with playQueue := ["zzz"] } =
      advanceNoQueue pickHead
        { { baseState with playQueue := ["zzz"] } with playQueue := [] } := by
  have h1 := queue_precedence pickHead
    { baseState with playQueue := ["music/b.mp3"] } "music/b.mp3" [] rfl
  have h2 := queue_precedence pickHead
    { baseState with playQueue := ["zzz"] } "zzz" [] rfl
  exact ⟨rfl, h1.1, h1.2.1 1 (by decide), h2.2.2 (by decide)⟩

theorem mem_sortList (i : Nat) (l : List Song) (a : Song) :
    a ∈ sortList i l ↔ a ∈ l := by
  unfold sortList
  split_ifs <;> simp [List.mem_mergeSort]

/-- C4: for a song S of the catalog and any query q, S appears in the View
computed by `apply_filter` exactly when q occurs case-insensitively in S's
title, artist, album or genre. -/
theorem filter_membership_spec (q : String) (st : PState) (S : Song)
    (hS : S ∈ st.songs) :
    S ∈ (apply_filter q st).filtered ↔
      (specCISubstr q S.title = true ∨ specCISubstr q S.artist = true ∨
       specCISubstr q S.album = true ∨ specCISubstr q S.genre = true) := by
  show S ∈ sortList st.sortIndex (filterSongs q st.songs) ↔ _
  rw [mem_sortList]
  unfold filterSongs specCISubstr
  rw [List.mem_filter]
  simp only [hS, true_and, Bool.or_eq_true]
  tauto

theorem filter_membership_spec_witness :
    songRock ∈ baseState.songs ∧
    (songRock ∈ (apply_filter "rock" baseState).filtered ↔
      (specCISubstr "rock" songRock.title = true ∨
       specCISubstr "rock" songRock.artist = true ∨
       specCISubstr "rock" songRock.album = true ∨
       specCISubstr "rock" songRock.genre = true)) :=
  ⟨by decide, filter_membership_spec "rock" baseState songRock (by decide)⟩

/-- C5 counterexample: applying a filter changes the View (from two songs
to one) yet leaves a non-empty shuffle history untouched — the code clears
the history only in `toggle_shuffle` (on) and on exhaustion inside
`next_song`, never on filter/sort/rescan. -/
theorem view_change_keeps_history_cx :
    (apply_filter "rock"
      { baseState with isShuffle := true, shuffleHistory := [0] }).filtered ≠
      ({ baseState with isShuffle := true, shuffleHistory := [0] } : PState).filtered ∧
    (apply_filter "rock"
      { baseState with isShuffle := true, shuffleHistory := [0] }).shuffleHistory
      = [0] := by
  refine ⟨by decide, by decide⟩

/-- C5 amended: the shuffle history is cleared exactly when shuffle is
toggled on and when it becomes exhaustive during a shuffled `next_song`
(whereupon it is reseeded with the freshly picked index); View changes by
filter, sort or rescan leave it unchanged. -/
theorem shuffle_history_lifecycle (st : PState) (q : String) (i : Nat)
    (ex : Bool) (folder : String) (entries : List (String × TagRead))
    (pick : List Nat → Nat) (hpick : ∀ l, l ≠ [] → pick l ∈ l) :
    (toggle_shuffle true st).shuffleHistory = [] ∧
    (apply_filter q st).shuffleHistory = st.shuffleHistory ∧
    (apply_sort i st).shuffleHistory = st.shuffleHistory ∧
    (refresh_library ex folder entries st).shuffleHistory = st.shuffleHistory ∧
    (st.isShuffle = true → st.playQueue = [] → st.filtered ≠ [] →
      unplayedOf st = [] →
      (next_song pick st).shuffleHistory = [pick (List.range st.filtered.length)]) := by
  refine ⟨rfl, rfl, rfl, rfl, ?_⟩
  intro hsh hq hne hexh
  rw [next_song_nil_queue pick st hq]
  unfold advanceNoQueue
  rw [if_neg (by rw [List.isEmpty_iff]; exact hne), if_pos (by rw [hsh]),
    if_pos (by rw [List.isEmpty_iff]; exact hexh)]
  have hrange : pick (List.range st.filtered.length) < st.filtered.length := by
    have := hpick (List.range st.filtered.length)
      (by simpa using List.length_pos.mp (List.length_pos.mpr hne))
    exact List.mem_range.mp this
  have hin := play_song_inRange ((pick (List.range st.filtered.length) : Nat) : Int)
    { st with shuffleHistory := [],
              currentIndex := ((pick (List.range st.filtered.length) : Nat) : Int) }
    (by positivity) (by exact_mod_cast hrange)
  rw [hin.2]
  rw [if_pos]
  · simp
  · exact ⟨by rw [hsh], by simp⟩

theorem shuffle_history_lifecycle_witness :
    (∀ l, l ≠ [] → pickHead l ∈ l) ∧
    (toggle_shuffle true
      { baseState with isShuffle := true, shuffleHistory := [0, 1] }).shuffleHistory = [] ∧
    (apply_filter "rock"
      { baseState with isShuffle := true, shuffleHistory := [0, 1] }).shuffleHistory
      = ({ baseState with isShuffle := true, shuffleHistory := [0, 1] } : PState).shuffleHistory ∧
    (apply_sort 1
      { baseState with isShuffle := true, shuffleHistory := [0, 1] }).shuffleHistory
      = ({ baseState with isShuffle := true, shuffleHistory := [0, 1] } : PState).shuffleHistory ∧
    (refresh_library true "music" []
      { baseState with isShuffle := true, shuffleHistory := [0, 1] }).shuffleHistory
      = ({ baseState with isShuffle := true, shuffleHistory := [0, 1] } : PState).shuffleHistory ∧
    (next_song pickHead
      { baseState with isShuffle := true, shuffleHistory := [0, 1] }).shuffleHistory
      = [pickHead (List.range
          ({ baseState with isShuffle := true, shuffleHistory := [0, 1] } : PState).filtered.length)] := by
  have hpick : ∀ l, l ≠ [] → pickHead l ∈ l := by
    intro l hl
    cases l with
    | nil => exact absurd rfl hl
    | cons a t => simp [pickHead]
  have h := shuffle_history_lifecycle
    { baseState with isShuffle := true, shuffleHistory := [0, 1] }
    "rock" 1 true "music" [] pickHead hpick
  exact ⟨hpick, h.1, h.2.1, h.2.2.1, h.2.2.2.1,
    h.2.2.2.2 rfl rfl (by decide) (by decide)⟩

/-- C6: with shuffle off and an empty queue, `next_song` increments the
current index when it is below the last View index; at the last index it
wraps to 0 exactly when repeat mode is "all" (1) and otherwise leaves the
whole state unchanged. -/
theorem sequential_advance_semantics (pick : List Nat → Nat) (st : PState)
    (hsh : st.isShuffle = false) (hq : st.playQueue = [])
    (hne : st.filtered ≠ []) :
    (st.currentIndex < (st.filtered.length : Int) - 1 →
      (next_song pick st).currentIndex = st.currentIndex + 1) ∧
    (st.currentIndex = (st.filtered.length : Int) - 1 →
      (st.repeatMode = 1 → (next_song pick st).currentIndex = 0) ∧
      (st.repeatMode ≠ 1 → next_song pick st = st)) := by
  rw [next_song_nil_queue pick st hq]
  unfold advanceNoQueue
  rw [if_neg (by rw [List.isEmpty_iff]; exact hne),
    if_neg (by rw [hsh]; exact Bool.false_ne_true)]
  constructor
  · intro hlt
    rw [if_pos hlt]
    exact play_song_currentIndex_set _ _
  · intro heq
    rw [if_neg (by omega)]
    constructor
    · intro hrep
      rw [if_pos hrep]
      exact play_song_currentIndex_set _ _
    · intro hrep
      rw [if_neg hrep]

theorem sequential_advance_semantics_witness :
    baseState.isShuffle = false ∧ baseState.playQueue = [] ∧
    baseState.filtered ≠ [] ∧
    (next_song pickHead baseState).currentIndex = baseState.currentIndex + 1 ∧
    (next_song pickHead
      { baseState with currentIndex := 1, repeatMode := 1 }).currentIndex = 0 ∧
    next_song pickHead { baseState with currentIndex := 1, repeatMode := 0 } =
      { baseState with currentIndex := 1, repeatMode := 0 } := by
  refine ⟨rfl, rfl, by decide, ?_, ?_, ?_⟩
  · exact (sequential_advance_semantics pickHead baseState rfl rfl
      (by decide)).1 (by decide)
  · exact ((sequential_advance_semantics pickHead
      { baseState with currentIndex := 1, repeatMode := 1 } rfl rfl
      (by decide)).2 (by decide)).1 rfl
  · exact ((sequential_advance_semantics pickHead
      { baseState with currentIndex := 1, repeatMode := 0 } rfl rfl
      (by decide)).2 (by decide)).2 (by decide)

/-- C7 counterexample: re-adding a path already in the playlist leaves the
playlist unchanged but surfaces nothing at all — `quick_add_to_playlist`
only shows a message in the appending branch, so no "already present"
report exists in the code. -/
theorem duplicate_add_silent_cx :
    quick_add_to_playlist "Road Trip" [songRock] 0
        [("Road Trip", ["music/a.mp3"])] =
      ([("Road Trip", ["music/a.mp3"])], AddReport.silent) ∧
    AddReport.silent ≠ AddReport.addedMsg "Road Trip" := by
  refine ⟨by decide, by decide⟩

/-- C7 amended: adding a path to a playlist is idempotent — a path already
present leaves the playlist contents (and hence length) unchanged as a
silent no-op with no report of any kind, not an error; an absent path is
appended exactly once, with a success message. -/
theorem quick_add_idempotent (name : String) (view : List Song) (idx : Nat)
    (pls : Playlists) (song : Song) (hv : view[idx]? = some song) :
    (song.file ∈ lookupPlaylist pls name →
      quick_add_to_playlist name view idx pls = (pls, AddReport.silent)) ∧
    (song.file ∉ lookupPlaylist pls name →
      quick_add_to_playlist name view idx pls =
        (setPlaylist pls name (lookupPlaylist pls name ++ [song.file]),
         AddReport.addedMsg name)) := by
  simp only [quick_add_to_playlist, hv]
  constructor
  · intro h
    rw [if_pos h]
  · intro h
    rw [if_neg h]

theorem quick_add_idempotent_witness :
    ([songRock] : List Song)[0]? = some songRock ∧
    quick_add_to_playlist "Road Trip" [songRock] 0
        [("Road Trip", ["music/a.mp3"])] =
      ([("Road Trip", ["music/a.mp3"])], AddReport.silent) ∧
    quick_add_to_playlist "Road Trip" [songRock] 0 [("Road Trip", [])] =
      (setPlaylist [("Road Trip", [])] "Road Trip"
        (lookupPlaylist [("Road Trip", [])] "Road Trip" ++ [songRock.file]),
       AddReport.addedMsg "Road Trip") := by
  have h1 := quick_add_idempotent "Road Trip" [songRock] 0
    [("Road Trip", ["music/a.mp3"])] songRock rfl
  have h2 := quick_add_idempotent "Road Trip" [songRock] 0
    [("Road Trip", [])] songRock rfl
  exact ⟨rfl, h1.1 (by decide), h2.2 (by decide)⟩

/-- C8 counterexample: "a.mp3" has a supported extension, its tag read
fails, and the scan returns the empty list — the file is omitted rather
than given placeholder defaults (the `except` branch only logs, it never
appends a song). -/
theorem scan_failure_omits_cx :
    supportedExt "a.mp3" = true ∧
    scan_music_folder true "music" [("a.mp3", TagRead.failure)] = [] := by
  refine ⟨by decide, by decide⟩

/-- C8 amended: a missing root yields an empty song list (after the
directory is created) rather than an error; a per-file tag-read failure
never aborts the scan — that file is skipped (omitted, with an error
logged) and the rest of the walk is still processed; a tag read that
returns no metadata yields a song with placeholder defaults
(title = filename without extension, artist/album/genre = "Unknown X"). -/
theorem scan_error_handling (folder : String) (e : String × TagRead)
    (entries : List (String × TagRead)) (fname : String)
    (hfail : e.2 = TagRead.failure) (hsupp : supportedExt fname = true) :
    scan_music_folder false folder entries = [] ∧
    scan_music_folder true folder (e :: entries) =
      scan_music_folder true folder entries ∧
    scan_music_folder true folder [(fname, TagRead.success none none none none)] =
      [{ title := splitextBase fname, artist := "Unknown Artist",
         album := "Unknown Album", genre := "Unknown Genre",
         file := folder ++ "/" ++ fname, duration := 0, plays := 0 }] := by
  refine ⟨rfl, ?_, ?_⟩
  · have hnone : scanEntry folder e = none := by
      unfold scanEntry
      rw [hfail]
      split
      · rfl
      · rfl
    unfold scan_music_folder
    rw [if_pos rfl, if_pos rfl, List.filterMap_cons, hnone]
  · unfold scan_music_folder
    rw [if_pos rfl]
    unfold scanEntry
    simp [hsupp]

theorem scan_error_handling_witness :
    ("a.mp3", TagRead.failure).2 = TagRead.failure ∧
    supportedExt "b.mp3" = true ∧
    scan_music_folder false "music" [("x.wav", TagRead.failure)] = [] ∧
    scan_music_folder true "music"
        [("a.mp3", TagRead.failure), ("x.wav", TagRead.failure)] =
      scan_music_folder true "music" [("x.wav", TagRead.failure)] ∧
    scan_music_folder true "music" [("b.mp3", TagRead.success none none none none)] =
      [{ title := splitextBase "b.mp3", artist := "Unknown Artist",
         album := "Unknown Album", genre := "Unknown Genre",
         file := "music" ++ "/" ++ "b.mp3", duration := 0, plays := 0 }] := by
  have h := scan_error_handling "music" ("a.mp3", TagRead.failure)
    [("x.wav", TagRead.failure)] "b.mp3" rfl (by decide)
  exact ⟨rfl, by decide, h.1, h.2.1, h.2.2⟩

/-- C9: loading the settings from a missing file and from malformed
content both produce the empty default state — favorites and recent plays
start as `[]` — without any error. -/
theorem load_settings_defaults :
    initFavorites (load_settings SettingsFile.missing) = [] ∧
    initRecentPlays (load_settings SettingsFile.missing) = [] ∧
    initFavorites (load_settings SettingsFile.malformed) = [] ∧
    initRecentPlays (load_settings SettingsFile.malformed) = [] :=
  ⟨rfl, rfl, rfl, rfl⟩

/-- C10: the queue never holds a path twice — enqueuing an already-queued
path is a no-op, and adding, popping, clearing and shuffling all preserve
distinctness of the queue entries. -/
theorem queue_distinct (q : List String) (hq : q.Nodup) :
    (∀ (view : List Song) idx, (add_to_queue view idx q).Nodup) ∧
    (∀ (view : List Song) idx song, view[idx]? = some song →
      song.file ∈ q → add_to_queue view idx q = q) ∧
    (∀ i, (popQueueAt i q).Nodup) ∧
    clear_queue.Nodup ∧
    (∀ q2, q.Perm q2 → q2.Nodup) := by
  refine ⟨?_, ?_, ?_, ?_, ?_⟩
  · intro view idx
    cases hv : view[idx]? with
    | none => simpa only [add_to_queue, hv] using hq
    | some song =>
      simp only [add_to_queue, hv]
      by_cases hmem : song.file ∈ q
      · rw [if_pos hmem]
        exact hq
      · rw [if_neg hmem, List.nodup_append]
        refine ⟨hq, List.nodup_singleton _, ?_⟩
        intro a ha hai
        rw [List.mem_singleton] at hai
        subst hai
        exact hmem ha
  · intro view idx song hv hmem
    simp only [add_to_queue, hv]
    rw [if_pos hmem]
  · intro i
    exact (List.eraseIdx_sublist q i).nodup hq
  · exact List.nodup_nil
  · exact fun q2 hp => hp.nodup hq

theorem queue_distinct_witness :
    (["music/a.mp3", "music/b.mp3"] : List String).Nodup ∧
    (add_to_queue [songRock] 0 ["music/a.mp3", "music/b.mp3"]).Nodup ∧
    add_to_queue [songRock] 0 ["music/a.mp3", "music/b.mp3"] =
      ["music/a.mp3", "music/b.mp3"] ∧
    (popQueueAt 0 ["music/a.mp3", "music/b.mp3"]).Nodup ∧
    clear_queue.Nodup ∧
    (["music/b.mp3", "music/a.mp3"] : List String).Nodup := by
  have h := queue_distinct ["music/a.mp3", "music/b.mp3"] (by decide)
  exact ⟨by decide, h.1 [songRock] 0,
    h.2.1 [songRock] 0 songRock rfl (by decide),
    h.2.2.1 0, h.2.2.2.1,
    h.2.2.2.2 ["music/b.mp3", "music/a.mp3"] (by decide)⟩
